import Mathlib

/-!
Verification of the precision-normalization and order-request construction
core of the trade-bot repository (src/main.py), shallowly embedded in Lean.

Modelling conventions:
* Python floats are embedded as exact rationals (`ℚ`); `round` is
  round-half-to-even on `ℚ`, matching Python's `round` on exactly
  representable values.  All concrete inputs appearing in theorems were
  cross-checked against the actual binary floating-point behaviour, where
  the two semantics agree.
* `float(s)` on the plain unsigned decimal strings used for exchange
  step/tick sizes is embedded by `parseDec` (digits with an optional
  single point); `f"{x:.pf}"` formatting by `formatFixed`.
* Python dicts keyed by strings are association lists; a dict built by a
  comprehension keeps the last binding for a duplicated key, hence
  `dictGet` scans the reversed list.
* The network call in each `place_*` method is external; the embedding
  returns the request that would be dispatched (`Except` error when the
  source raises/catches `ValueError` and returns `None`).
-/

namespace TradeBot

/-- Numeric value of a digit character, as in Python's `ord(c) - 48`. -/
def charVal (c : Char) : ℕ := c.toNat - 48

/-- The character for a single decimal digit. -/
def digitChar (d : ℕ) : Char := Char.ofNat (48 + d)

/-- Value of a string of decimal digits (most significant first). -/
def digitsToNat (l : List Char) : ℕ := l.foldl (fun a c => 10 * a + charVal c) 0

/-- Python's `str.rstrip('0')`. -/
def stripTrailingZeros (l : List Char) : List Char :=
  (l.reverse.dropWhile (· == '0')).reverse

/-- Python's `s.split('.')[-1]`: the part of the string after the last dot
(the whole string when there is no dot). -/
def afterLastDot (l : List Char) : List Char :=
  (l.reverse.takeWhile (· != '.')).reverse

/-- Decimal digits of a natural number, fuel-driven so that it reduces in
the kernel. -/
def natToDigitsAux : ℕ → ℕ → List Char
  | 0, _ => []
  | fuel + 1, n =>
    if n < 10 then [digitChar n]
    else natToDigitsAux fuel (n / 10) ++ [digitChar (n % 10)]

/-- Decimal digits of a natural number, most significant first. -/
def natToDigits (n : ℕ) : List Char := natToDigitsAux (n + 1) n

/-- The last `p` decimal digits of a natural number, zero-padded to
exactly `p` characters. -/
def natDigitsPadded : ℕ → ℕ → List Char
  | _, 0 => []
  | m, p + 1 => natDigitsPadded (m / 10) p ++ [digitChar (m % 10)]

/-- Parse a plain unsigned decimal string (digits with at most one point),
the fragment of Python `float()` exercised by exchange step/tick sizes.
`"1."` and `".5"` parse, `""`, `"."` and `"1.2.3"` do not. -/
def parseDecCore (l : List Char) : Option ℚ :=
  let w := l.takeWhile (· != '.')
  match l.dropWhile (· != '.') with
  | [] => if !l.isEmpty && l.all Char.isDigit then some ((digitsToNat l : ℚ)) else none
  | _ :: f =>
    if (!w.isEmpty || !f.isEmpty) && w.all Char.isDigit && f.all Char.isDigit then
      some ((digitsToNat w : ℚ) + (digitsToNat f : ℚ) / 10 ^ f.length)
    else none

/-- Parse an unsigned plain decimal string. -/
def parseDec (s : String) : Option ℚ := parseDecCore s.data

/-- Parse a plain decimal string with an optional leading minus sign
(the shape produced by `formatFixed`). -/
def parseDecSigned (s : String) : Option ℚ :=
  match s.data with
  | [] => none
  | c :: t => if c = '-' then (parseDecCore t).map (fun q => -q) else parseDecCore (c :: t)

/-- Python's `round` to an integer: round half to even. -/
def roundHalfEven (q : ℚ) : ℤ :=
  let n := ⌊q⌋
  if q - n < 1/2 then n
  else if 1/2 < q - n then n + 1
  else if n % 2 = 0 then n else n + 1

/-- Render an integer `n` scaled by `10 ^ p` as a fixed-point decimal
string with exactly `p` fractional digits (the shape of `"%.pf"`). -/
def renderFixed (n : ℤ) (p : ℕ) : String :=
  let sign : List Char := if n < 0 then ['-'] else []
  let m := n.natAbs
  if p = 0 then ⟨sign ++ natToDigits m⟩
  else ⟨sign ++ natToDigits (m / 10 ^ p) ++ '.' :: natDigitsPadded m p⟩

/-- Python's `f"{q:.{p}f}"` on an exact value. -/
def formatFixed (q : ℚ) (p : ℕ) : String := renderFixed (roundHalfEven (q * 10 ^ p)) p

/-- Precision computed by `BasicBot._round_value` (src/main.py lines 56-60):
`0` when the parsed step equals `1`, otherwise
`len(step_size_str.split('.')[-1].rstrip('0'))`. -/
def roundPrecision (stepStr : String) (step : ℚ) : ℕ :=
  if step = 1 then 0 else (stripTrailingZeros (afterLastDot stepStr.data)).length

/-- `BasicBot._round_value` (src/main.py lines 51-66): parse the step
string, derive the precision, round the value to the nearest multiple of
the step, and format at that precision.  `none` models the `ValueError`
raised by `float()` on an unparsable step and the `ZeroDivisionError` on a
zero step. -/
def roundValue (value : ℚ) (stepStr : String) : Option String :=
  match parseDec stepStr with
  | none => none
  | some step =>
    if step = 0 then none
    else some (formatFixed ((roundHalfEven (value / step) : ℚ) * step) (roundPrecision stepStr step))

/-- Number of characters after the last `'.'` of a string (`0` when the
string has no point): the count of fractional digits of a rendered
decimal. -/
def fracDigitsL (l : List Char) : ℕ :=
  if '.' ∈ l then (l.reverse.takeWhile (· != '.')).length else 0

/-- Fractional-digit count of a string. -/
def fracDigits (s : String) : ℕ := fracDigitsL s.data

/-- Follows the spec's words (for comparison with `roundPrecision`): the
number of fractional digits of a step/tick string after stripping trailing
zeros from its fractional part; a string without a decimal point has no
fractional digits. -/
def specFracDigits (s : String) : ℕ :=
  if '.' ∈ s.data then (stripTrailingZeros ((s.data.dropWhile (· != '.')).tail)).length else 0

/-- One exchange filter record: its `filterType` plus its remaining
key/value pairs (`stepSize`, `tickSize`, bounds, ...). -/
structure FilterRec where
  filterType : String
  entries : List (String × String)
deriving DecidableEq

/-- One entry of `exchange_info['symbols']`. -/
structure SymbolInfo where
  symbol : String
  filters : List FilterRec
deriving DecidableEq

/-- Python `dict.get` on a dict built from an association list where a
later binding for the same key wins (as in a dict comprehension). -/
def dictGet {α : Type} (d : List (String × α)) (k : String) : Option α :=
  (d.reverse.find? (fun kv => kv.1 == k)).map (fun kv => kv.2)

/-- The dict comprehension of `_get_symbol_filters`:
`{f['filterType']: f for f in item['filters']}`. -/
def filtersDict (l : List FilterRec) : List (String × FilterRec) :=
  l.map (fun fr => (fr.filterType, fr))

/-- Typed failures of the embedded core: `ValueError(f"Symbol ... not
found")` from `_get_symbol_filters`, and the `ValueError` /
`ZeroDivisionError` cases of `_round_value`. -/
inductive BotError where
  | symbolNotFound (symbol : String)
  | invalidStepSize
deriving DecidableEq

/-- `BasicBot._get_symbol_filters` (src/main.py lines 44-49): linear scan
of the symbol list; raises when the symbol is absent. -/
def getSymbolFilters (info : List SymbolInfo) (symbol : String) :
    Except BotError (List (String × FilterRec)) :=
  match info.find? (fun item => item.symbol == symbol) with
  | some item => .ok (filtersDict item.filters)
  | none => .error (.symbolNotFound symbol)

/-- `filters.get('LOT_SIZE', {}).get('stepSize', '1')`. -/
def qtyStepSize (fd : List (String × FilterRec)) : String :=
  match dictGet fd "LOT_SIZE" with
  | none => "1"
  | some fr => (dictGet fr.entries "stepSize").getD "1"

/-- `filters.get('PRICE_FILTER', {}).get('tickSize', '1')`. -/
def priceTickSize (fd : List (String × FilterRec)) : String :=
  match dictGet fd "PRICE_FILTER" with
  | none => "1"
  | some fr => (dictGet fr.entries "tickSize").getD "1"

/-- The keyword arguments passed to `futures_create_order`; fields absent
from a given order type are `none`. -/
structure OrderRequest where
  symbol : String
  side : String
  type : String
  quantity : String
  price : Option String
  stopPrice : Option String
  timeInForce : Option String
deriving DecidableEq

/-- `BasicBot.place_market_order` (src/main.py lines 80-104), up to the
dispatch: the request sent on success, the caught `ValueError` otherwise. -/
def placeMarketOrder (info : List SymbolInfo) (symbol side : String) (quantity : ℚ) :
    Except BotError OrderRequest :=
  match getSymbolFilters info symbol with
  | .error e => .error e
  | .ok fd =>
    match roundValue quantity (qtyStepSize fd) with
    | none => .error .invalidStepSize
    | some rq => .ok ⟨symbol, side, "MARKET", rq, none, none, none⟩

/-- `BasicBot.place_limit_order` (src/main.py lines 106-137), up to the
dispatch. -/
def placeLimitOrder (info : List SymbolInfo) (symbol side : String) (quantity price : ℚ) :
    Except BotError OrderRequest :=
  match getSymbolFilters info symbol with
  | .error e => .error e
  | .ok fd =>
    match roundValue quantity (qtyStepSize fd), roundValue price (priceTickSize fd) with
    | some rq, some rp => .ok ⟨symbol, side, "LIMIT", rq, some rp, none, some "GTC"⟩
    | _, _ => .error .invalidStepSize

/-- `BasicBot.place_stop_loss_limit` (src/main.py lines 140-175), up to
the dispatch; limit price and stop price share the `PRICE_FILTER` tick. -/
def placeStopLossLimit (info : List SymbolInfo) (symbol side : String)
    (quantity price stopPrice : ℚ) : Except BotError OrderRequest :=
  match getSymbolFilters info symbol with
  | .error e => .error e
  | .ok fd =>
    match roundValue quantity (qtyStepSize fd), roundValue price (priceTickSize fd),
        roundValue stopPrice (priceTickSize fd) with
    | some rq, some rp, some rsp =>
      .ok ⟨symbol, side, "STOP_LOSS_LIMIT", rq, some rp, some rsp, some "GTC"⟩
    | _, _, _ => .error .invalidStepSize

/-- Python `str.upper()` on ASCII input. -/
def strUpper (s : String) : String := ⟨s.data.map Char.toUpper⟩

/-- Outcome of one iteration of the interactive menu loop in `main`. -/
inductive CliAction where
  | checkBalance
  | placed (result : Except BotError OrderRequest)
  | invalidSide
  | listOrders
  | cancelOne
  | cancelAll
  | exitBot
  | invalidSelection

/-- One iteration of the menu dispatch in `main` (src/main.py lines
290-361): menu choices `2`-`4` place orders after the side check
`if side_input not in ['BUY', 'SELL']` on the uppercased input; an
unrecognized selection falls through to `"Invalid selection."`. -/
def handleChoice (info : List SymbolInfo) (choice symbolRaw sideRaw : String)
    (qty price stopPrice : ℚ) : CliAction :=
  if choice = "1" then .checkBalance
  else if choice = "2" ∨ choice = "3" ∨ choice = "4" then
    if strUpper sideRaw ≠ "BUY" ∧ strUpper sideRaw ≠ "SELL" then .invalidSide
    else if choice = "2" then
      .placed (placeMarketOrder info (strUpper symbolRaw) (strUpper sideRaw) qty)
    else if choice = "3" then
      .placed (placeLimitOrder info (strUpper symbolRaw) (strUpper sideRaw) qty price)
    else
      .placed (placeStopLossLimit info (strUpper symbolRaw) (strUpper sideRaw) qty price stopPrice)
  else if choice = "5" then .listOrders
  else if choice = "6" then .cancelOne
  else if choice = "7" then .cancelAll
  else if choice = "8" then .exitBot
  else .invalidSelection

/-! ### Helper lemmas: digits and digit strings -/

theorem charVal_digitChar (d : ℕ) (hd : d < 10) : charVal (digitChar d) = d := by
  interval_cases d <;> rfl

theorem isDigit_digitChar (d : ℕ) (hd : d < 10) : (digitChar d).isDigit = true := by
  interval_cases d <;> rfl

theorem isDigit_bne_dot (c : Char) (h : c.isDigit = true) : (c != '.') = true := by
  rw [bne_iff_ne]
  intro he
  rw [he] at h
  exact absurd h (by decide)

theorem isDigit_ne_dash (c : Char) (h : c.isDigit = true) : c ≠ '-' := by
  intro he
  rw [he] at h
  exact absurd h (by decide)

theorem digitsToNat_append (l : List Char) (c : Char) :
    digitsToNat (l ++ [c]) = 10 * digitsToNat l + charVal c := by
  simp [digitsToNat, List.foldl_append]

theorem length_dropWhile_le {α : Type} (p : α → Bool) :
    ∀ l : List α, (l.dropWhile p).length ≤ l.length
  | [] => le_refl _
  | c :: t => by
    rw [List.dropWhile_cons]
    by_cases h : p c = true
    · rw [if_pos h]
      exact (length_dropWhile_le p t).trans (Nat.le_succ _)
    · rw [if_neg h]

theorem takeWhile_append_eq {α : Type} (p : α → Bool) (c : α) (l₂ : List α) (hc : p c = false) :
    ∀ l₁ : List α, (∀ x ∈ l₁, p x = true) → (l₁ ++ c :: l₂).takeWhile p = l₁
  | [], _ => by simp [List.takeWhile_cons, hc]
  | a :: t, h => by
    have ha : p a = true := h a (by simp)
    rw [List.cons_append, List.takeWhile_cons, if_pos ha,
      takeWhile_append_eq p c l₂ hc t (fun x hx => h x (by simp [hx]))]

theorem dropWhile_append_eq {α : Type} (p : α → Bool) (l₂ : List α) :
    ∀ l₁ : List α, (∀ x ∈ l₁, p x = true) → (l₁ ++ l₂).dropWhile p = l₂.dropWhile p
  | [], _ => rfl
  | a :: t, h => by
    have ha : p a = true := h a (by simp)
    rw [List.cons_append, List.dropWhile_cons, if_pos ha,
      dropWhile_append_eq p l₂ t (fun x hx => h x (by simp [hx]))]

theorem dropWhile_head_false {α : Type} (p : α → Bool) :
    ∀ (l t : List α) (c : α), l.dropWhile p = c :: t → p c = false
  | [], t, c => by intro h; simp [List.dropWhile] at h
  | a :: l', t, c => by
    intro h
    rw [List.dropWhile_cons] at h
    by_cases ha : p a = true
    · rw [if_pos ha] at h
      exact dropWhile_head_false p l' t c h
    · rw [if_neg ha] at h
      injection h with h1 _
      rw [← h1]
      simpa using ha

theorem digitsToNat_drop_rev : ∀ r : List Char,
    digitsToNat ((r.dropWhile (· == '0')).reverse) * 10 ^ (r.length - (r.dropWhile (· == '0')).length)
      = digitsToNat r.reverse := by
  intro r
  induction r with
  | nil => simp [digitsToNat]
  | cons c t ih =>
    rw [List.dropWhile_cons]
    by_cases hc : (c == '0') = true
    · rw [if_pos hc]
      have hc' : c = '0' := by simpa using hc
      have hlen : (t.dropWhile (· == '0')).length ≤ t.length := length_dropWhile_le _ t
      have hx : (c :: t).length - (t.dropWhile (· == '0')).length
          = (t.length - (t.dropWhile (· == '0')).length) + 1 := by
        simp only [List.length_cons]
        omega
      rw [hx, pow_succ, List.reverse_cons, digitsToNat_append, hc',
        show charVal '0' = 0 from rfl, ← ih]
      ring
    · rw [if_neg hc]
      simp

theorem digitsToNat_strip (l : List Char) :
    digitsToNat (stripTrailingZeros l) * 10 ^ (l.length - (stripTrailingZeros l).length)
      = digitsToNat l := by
  have h := digitsToNat_drop_rev l.reverse
  simpa [stripTrailingZeros] using h

theorem strip_length_le (l : List Char) : (stripTrailingZeros l).length ≤ l.length := by
  have h := length_dropWhile_le (· == '0') l.reverse
  simpa [stripTrailingZeros] using h

theorem natToDigitsAux_spec : ∀ fuel n : ℕ, n < fuel →
    digitsToNat (natToDigitsAux fuel n) = n ∧ natToDigitsAux fuel n ≠ [] ∧
      ∀ c ∈ natToDigitsAux fuel n, ∃ d, d < 10 ∧ c = digitChar d := by
  intro fuel
  induction fuel with
  | zero => intro n h; omega
  | succ fuel ih =>
    intro n hn
    by_cases h10 : n < 10
    · simp only [natToDigitsAux, if_pos h10]
      refine ⟨?_, by simp, ?_⟩
      · simp [digitsToNat, List.foldl, charVal_digitChar n h10]
      · intro c hc
        simp only [List.mem_singleton] at hc
        exact ⟨n, h10, hc⟩
    · simp only [natToDigitsAux, if_neg h10]
      have hlt : n / 10 < fuel := by
        have := Nat.div_lt_self (show 0 < n by omega) (show 1 < 10 by omega)
        omega
      obtain ⟨ihv, ihne, ihc⟩ := ih (n / 10) hlt
      refine ⟨?_, by simp, ?_⟩
      · rw [digitsToNat_append, ihv, charVal_digitChar _ (Nat.mod_lt _ (by omega))]
        omega
      · intro c hc
        rcases List.mem_append.mp hc with h | h
        · exact ihc c h
        · simp only [List.mem_singleton] at h
          exact ⟨n % 10, Nat.mod_lt _ (by omega), h⟩

theorem digitsToNat_natToDigits (n : ℕ) : digitsToNat (natToDigits n) = n :=
  (natToDigitsAux_spec _ _ (Nat.lt_succ_self n)).1

theorem natToDigits_ne_nil (n : ℕ) : natToDigits n ≠ [] :=
  (natToDigitsAux_spec _ _ (Nat.lt_succ_self n)).2.1

theorem mem_natToDigits (n : ℕ) (c : Char) (hc : c ∈ natToDigits n) :
    ∃ d, d < 10 ∧ c = digitChar d :=
  (natToDigitsAux_spec _ _ (Nat.lt_succ_self n)).2.2 c hc

theorem natToDigits_all_digits (n : ℕ) : ∀ c ∈ natToDigits n, c.isDigit = true := by
  intro c hc
  obtain ⟨d, hd, rfl⟩ := mem_natToDigits n c hc
  exact isDigit_digitChar d hd

theorem natDigitsPadded_spec : ∀ p m : ℕ,
    (natDigitsPadded m p).length = p ∧ digitsToNat (natDigitsPadded m p) = m % 10 ^ p ∧
      ∀ c ∈ natDigitsPadded m p, ∃ d, d < 10 ∧ c = digitChar d := by
  intro p
  induction p with
  | zero =>
    intro m
    refine ⟨rfl, by simp [natDigitsPadded, digitsToNat, Nat.mod_one], by simp [natDigitsPadded]⟩
  | succ p ih =>
    intro m
    obtain ⟨ihl, ihv, ihc⟩ := ih (m / 10)
    simp only [natDigitsPadded]
    refine ⟨by simp [ihl], ?_, ?_⟩
    · rw [digitsToNat_append, ihv, charVal_digitChar _ (Nat.mod_lt _ (by omega))]
      have hmm : m % (10 * 10 ^ p) = m % 10 + 10 * (m / 10 % 10 ^ p) := Nat.mod_mul
      rw [pow_succ']
      omega
    · intro c hc
      rcases List.mem_append.mp hc with h | h
      · exact ihc c h
      · simp only [List.mem_singleton] at h
        exact ⟨m % 10, Nat.mod_lt _ (by omega), h⟩

theorem natDigitsPadded_all_digits (m p : ℕ) : ∀ c ∈ natDigitsPadded m p, c.isDigit = true := by
  intro c hc
  obtain ⟨d, hd, rfl⟩ := (natDigitsPadded_spec p m).2.2 c hc
  exact isDigit_digitChar d hd

/-! ### Helper lemmas: parsing and rendering -/

theorem parseDecCore_all_digits (l : List Char) (hne : l ≠ [])
    (hall : ∀ c ∈ l, c.isDigit = true) : parseDecCore l = some ((digitsToNat l : ℚ)) := by
  have hdrop : l.dropWhile (· != '.') = [] :=
    List.dropWhile_eq_nil_iff.mpr (fun c hc => isDigit_bne_dot c (hall c hc))
  have hemp : l.isEmpty = false := by
    cases l with
    | nil => exact absurd rfl hne
    | cons a t => rfl
  simp only [parseDecCore, hdrop]
  rw [if_pos]
  simp only [hemp, Bool.not_false, Bool.true_and, List.all_eq_true]
  exact hall

theorem parseDecCore_wf (w f : List Char) (hw : ∀ c ∈ w, c.isDigit = true)
    (hf : ∀ c ∈ f, c.isDigit = true) (hne : w ≠ []) :
    parseDecCore (w ++ '.' :: f)
      = some ((digitsToNat w : ℚ) + (digitsToNat f : ℚ) / 10 ^ f.length) := by
  have hwd : ∀ c ∈ w, (c != '.') = true := fun c hc => isDigit_bne_dot c (hw c hc)
  have htake : (w ++ '.' :: f).takeWhile (· != '.') = w :=
    takeWhile_append_eq _ '.' f (by decide) w hwd
  have hdropw : (w ++ '.' :: f).dropWhile (· != '.') = '.' :: f := by
    rw [dropWhile_append_eq _ ('.' :: f) w hwd]
    simp [List.dropWhile_cons]
  have hemp : w.isEmpty = false := by
    cases w with
    | nil => exact absurd rfl hne
    | cons a t => rfl
  simp only [parseDecCore, hdropw, htake]
  rw [if_pos]
  simp only [hemp, Bool.not_false, Bool.true_or, Bool.and_eq_true, List.all_eq_true]
  exact ⟨⟨trivial, hw⟩, hf⟩

theorem rheLT (q : ℚ) (z : ℤ) (hf : ⌊q⌋ = z) (hlt : q - z < 1/2) : roundHalfEven q = z := by
  rw [roundHalfEven, hf, if_pos hlt]

theorem rheGT (q : ℚ) (z : ℤ) (hf : ⌊q⌋ = z) (hgt : 1/2 < q - z) : roundHalfEven q = z + 1 := by
  rw [roundHalfEven, hf, if_neg (by linarith), if_pos hgt]

theorem rheInt (z : ℤ) : roundHalfEven ((z : ℤ) : ℚ) = z := by
  rw [roundHalfEven, Int.floor_intCast]
  norm_num

theorem nat_div_mod_cast (m p : ℕ) :
    ((m / 10 ^ p : ℕ) : ℚ) + ((m % 10 ^ p : ℕ) : ℚ) / 10 ^ p = (m : ℚ) / 10 ^ p := by
  have h10 : ((10 : ℚ) ^ p) ≠ 0 := by positivity
  field_simp
  norm_cast
  rw [mul_comm]
  exact Nat.div_add_mod m (10 ^ p)

theorem parseDecCore_renderFixed_abs (m : ℕ) (p : ℕ) :
    parseDecCore (if p = 0 then natToDigits m
        else natToDigits (m / 10 ^ p) ++ '.' :: natDigitsPadded m p)
      = some ((m : ℚ) / 10 ^ p) := by
  by_cases hp : p = 0
  · subst hp
    rw [if_pos rfl,
      parseDecCore_all_digits _ (natToDigits_ne_nil m) (natToDigits_all_digits m),
      digitsToNat_natToDigits]
    norm_num
  · rw [if_neg hp,
      parseDecCore_wf _ _ (natToDigits_all_digits _) (natDigitsPadded_all_digits m p)
        (natToDigits_ne_nil _),
      digitsToNat_natToDigits, (natDigitsPadded_spec p m).1, (natDigitsPadded_spec p m).2.1,
      nat_div_mod_cast]

theorem renderFixed_data (n : ℤ) (p : ℕ) :
    (renderFixed n p).data = (if n < 0 then ['-'] else [])
      ++ (if p = 0 then natToDigits n.natAbs
          else natToDigits (n.natAbs / 10 ^ p) ++ '.' :: natDigitsPadded n.natAbs p) := by
  by_cases hp : p = 0 <;> simp [renderFixed, hp]

theorem parseDecSigned_renderFixed (n : ℤ) (p : ℕ) :
    parseDecSigned (renderFixed n p) = some ((n : ℚ) / 10 ^ p) := by
  have hdata := renderFixed_data n p
  set body := (if p = 0 then natToDigits n.natAbs
      else natToDigits (n.natAbs / 10 ^ p) ++ '.' :: natDigitsPadded n.natAbs p) with hbody
  have hcore : parseDecCore body = some ((n.natAbs : ℚ) / 10 ^ p) :=
    parseDecCore_renderFixed_abs n.natAbs p
  by_cases hneg : n < 0
  · rw [if_pos hneg, List.singleton_append] at hdata
    have habs : ((n.natAbs : ℕ) : ℚ) = -(n : ℚ) := by
      push_cast [Int.cast_natAbs]
      exact abs_of_neg (by exact_mod_cast hneg)
    simp only [parseDecSigned, hdata]
    rw [if_pos trivial, hcore]
    simp only [Option.map_some']
    congr 1
    rw [habs]
    ring
  · rw [if_neg hneg, List.nil_append] at hdata
    have habs : ((n.natAbs : ℕ) : ℚ) = (n : ℚ) := by
      push_cast [Int.cast_natAbs]
      exact abs_of_nonneg (by exact_mod_cast not_lt.mp hneg)
    obtain ⟨c, t, hct, hcd⟩ : ∃ c t, body = c :: t ∧ c.isDigit = true := by
      rw [hbody]
      by_cases hp : p = 0
      · rw [if_pos hp]
        obtain ⟨c, t, hct⟩ := List.exists_cons_of_ne_nil (natToDigits_ne_nil n.natAbs)
        refine ⟨c, t, hct, natToDigits_all_digits n.natAbs c ?_⟩
        rw [hct]
        simp
      · rw [if_neg hp]
        obtain ⟨c, t, hct⟩ :=
          List.exists_cons_of_ne_nil (natToDigits_ne_nil (n.natAbs / 10 ^ p))
        refine ⟨c, t ++ '.' :: natDigitsPadded n.natAbs p, by rw [hct]; rfl,
          natToDigits_all_digits (n.natAbs / 10 ^ p) c ?_⟩
        rw [hct]
        simp
    simp only [parseDecSigned, hdata, hct]
    rw [if_neg (isDigit_ne_dash c hcd), ← hct, hcore, habs]

theorem fracDigitsL_renderFixed (n : ℤ) (p : ℕ) : fracDigitsL (renderFixed n p).data = p := by
  rw [renderFixed_data]
  by_cases hp : p = 0
  · subst hp
    rw [if_pos rfl, fracDigitsL, if_neg]
    intro hmem
    rcases List.mem_append.mp hmem with h | h
    · revert h
      by_cases hn : n < 0
      · rw [if_pos hn]; simp
      · rw [if_neg hn]; simp
    · obtain ⟨d, hd, hdc⟩ := mem_natToDigits _ _ h
      have hdig := isDigit_digitChar d hd
      rw [← hdc] at hdig
      exact absurd hdig (by decide)
  · rw [if_neg hp, fracDigitsL, if_pos]
    · have hpadrev : ∀ c ∈ (natDigitsPadded n.natAbs p).reverse, (c != '.') = true := by
        intro c hc
        rw [List.mem_reverse] at hc
        exact isDigit_bne_dot c (natDigitsPadded_all_digits _ _ c hc)
      have hrev : ((if n < 0 then ['-'] else [])
            ++ (natToDigits (n.natAbs / 10 ^ p) ++ '.' :: natDigitsPadded n.natAbs p)).reverse
          = (natDigitsPadded n.natAbs p).reverse
            ++ '.' :: ((natToDigits (n.natAbs / 10 ^ p)).reverse
              ++ (if n < 0 then ['-'] else []).reverse) := by
        simp [List.reverse_append, List.reverse_cons, List.append_assoc, List.singleton_append]
      rw [hrev, takeWhile_append_eq _ '.' _ (by decide) _ hpadrev, List.length_reverse,
        (natDigitsPadded_spec p n.natAbs).1]
    · simp

theorem roundValue_eq (v step : ℚ) (s : String) (k : ℤ) (p : ℕ) (n : ℤ)
    (hp : parseDec s = some step) (h0 : ¬ step = 0)
    (hk : roundHalfEven (v / step) = k) (hprec : roundPrecision s step = p)
    (hn : ((k : ℚ) * step) * 10 ^ p = ((n : ℤ) : ℚ)) :
    roundValue v s = some (renderFixed n p) := by
  simp only [roundValue, hp, if_neg h0, hk, hprec, formatFixed, hn, rheInt]

theorem roundValue_elim (v : ℚ) (s out : String) (h : roundValue v s = some out) :
    ∃ step, parseDec s = some step ∧ ¬ step = 0 ∧
      out = formatFixed ((roundHalfEven (v / step) : ℚ) * step) (roundPrecision s step) := by
  cases hp : parseDec s with
  | none =>
    simp only [roundValue, hp] at h
    exact Option.noConfusion h
  | some step =>
    simp only [roundValue, hp] at h
    by_cases h0 : step = 0
    · rw [if_pos h0] at h
      simp at h
    · rw [if_neg h0] at h
      exact ⟨step, rfl, h0, (Option.some.inj h).symm⟩

theorem formatFixed_eq_renderFixed (q : ℚ) (p : ℕ) (z : ℤ) (hz : q * 10 ^ p = (z : ℚ)) :
    formatFixed q p = renderFixed z p := by
  rw [formatFixed, hz, rheInt]

theorem parseDecCore_some_dot (l : List Char) (st : ℚ) (d : Char) (f : List Char)
    (hd : l.dropWhile (· != '.') = d :: f) (hp : parseDecCore l = some st) :
    l = l.takeWhile (· != '.') ++ '.' :: f ∧
      (∀ c ∈ l.takeWhile (· != '.'), (c != '.') = true) ∧
      (∀ c ∈ f, c.isDigit = true) ∧
      st = (digitsToNat (l.takeWhile (· != '.')) : ℚ) + (digitsToNat f : ℚ) / 10 ^ f.length := by
  have hdot : d = '.' := by
    have h := dropWhile_head_false _ l f d hd
    simpa using h
  simp only [parseDecCore, hd] at hp
  by_cases hcond : ((!(l.takeWhile (· != '.')).isEmpty || !f.isEmpty)
      && (l.takeWhile (· != '.')).all Char.isDigit && f.all Char.isDigit) = true
  · rw [if_pos hcond] at hp
    simp only [Bool.and_eq_true, List.all_eq_true] at hcond
    refine ⟨?_, fun c hc => List.mem_takeWhile_imp (p := (· != '.')) hc, hcond.2,
      (Option.some.inj hp).symm⟩
    conv_lhs => rw [← List.takeWhile_append_dropWhile (p := (· != '.')) (l := l)]
    rw [hd, hdot]
  · rw [if_neg hcond] at hp
    simp at hp

theorem afterLastDot_append (w f : List Char) (_hw : ∀ c ∈ w, (c != '.') = true)
    (hf : ∀ c ∈ f, (c != '.') = true) : afterLastDot (w ++ '.' :: f) = f := by
  rw [afterLastDot]
  have hrev : (w ++ '.' :: f).reverse = f.reverse ++ '.' :: w.reverse := by
    simp [List.reverse_append, List.reverse_cons, List.append_assoc, List.singleton_append]
  rw [hrev,
    takeWhile_append_eq _ '.' _ (by decide) _ (fun c hc => hf c (List.mem_reverse.mp hc)),
    List.reverse_reverse]

theorem afterLastDot_no_dot (l : List Char) (h : ∀ c ∈ l, (c != '.') = true) :
    afterLastDot l = l := by
  rw [afterLastDot,
    List.takeWhile_eq_self_iff.mpr (fun c hc => h c (List.mem_reverse.mp hc)),
    List.reverse_reverse]

theorem roundPrecision_dotted (t : String) (st : ℚ) (hp : parseDec t = some st)
    (hdot : '.' ∈ t.data) (h1 : st ≠ 1) : roundPrecision t st = specFracDigits t := by
  rw [roundPrecision, if_neg h1, specFracDigits, if_pos hdot]
  cases hd : t.data.dropWhile (· != '.') with
  | nil =>
    exfalso
    have hall := List.dropWhile_eq_nil_iff.mp hd
    have hcontra := hall '.' hdot
    simp at hcontra
  | cons d f =>
    obtain ⟨hsplit, hwdot, hfdig, _⟩ := parseDecCore_some_dot t.data st d f hd hp
    have hafter : afterLastDot t.data = f := by
      conv_lhs => rw [hsplit]
      exact afterLastDot_append _ f hwdot (fun c hc => isDigit_bne_dot c (hfdig c hc))
    rw [hafter]
    rfl

theorem roundPrecision_undotted (t : String) (st : ℚ) (hnd : '.' ∉ t.data) (h1 : st ≠ 1) :
    roundPrecision t st = (stripTrailingZeros t.data).length := by
  rw [roundPrecision, if_neg h1, afterLastDot_no_dot t.data ?_]
  intro c hc
  rw [bne_iff_ne]
  intro he
  exact hnd (he ▸ hc)

theorem parseDec_mul_pow (s : String) (step : ℚ) (hp : parseDec s = some step) :
    ∃ z : ℕ, step * 10 ^ (stripTrailingZeros (afterLastDot s.data)).length = (z : ℚ) := by
  rw [parseDec] at hp
  cases hd : s.data.dropWhile (· != '.') with
  | nil =>
    simp only [parseDecCore, hd] at hp
    by_cases hcond : (!s.data.isEmpty && s.data.all Char.isDigit) = true
    · rw [if_pos hcond] at hp
      have hst : step = (digitsToNat s.data : ℚ) := (Option.some.inj hp).symm
      refine ⟨digitsToNat s.data * 10 ^ (stripTrailingZeros (afterLastDot s.data)).length, ?_⟩
      rw [hst]
      push_cast
      ring
    · rw [if_neg hcond] at hp
      simp at hp
  | cons d f =>
    obtain ⟨hsplit, hwdot, hfdig, hst⟩ := parseDecCore_some_dot s.data step d f hd hp
    have hafter : afterLastDot s.data = f := by
      conv_lhs => rw [hsplit]
      exact afterLastDot_append _ f hwdot (fun c hc => isDigit_bne_dot c (hfdig c hc))
    rw [hafter]
    have hple : (stripTrailingZeros f).length ≤ f.length := strip_length_le f
    have hstrip := digitsToNat_strip f
    have hcast : (digitsToNat f : ℚ) = (digitsToNat (stripTrailingZeros f) : ℚ)
        * 10 ^ (f.length - (stripTrailingZeros f).length) := by
      exact_mod_cast congrArg (fun k : ℕ => (k : ℚ)) hstrip.symm
    have hpow : (10 : ℚ) ^ (f.length - (stripTrailingZeros f).length)
        * 10 ^ (stripTrailingZeros f).length = 10 ^ f.length := by
      rw [← pow_add, Nat.sub_add_cancel hple]
    have h10 : ((10 : ℚ) ^ f.length) ≠ 0 := by positivity
    refine ⟨digitsToNat (s.data.takeWhile (· != '.')) * 10 ^ (stripTrailingZeros f).length
      + digitsToNat (stripTrailingZeros f), ?_⟩
    rw [hst]
    push_cast
    rw [add_mul, div_mul_eq_mul_div, hcast, mul_assoc, hpow, mul_div_assoc, div_self h10,
      mul_one]

theorem parseDec_mul_pow_precision (s : String) (step : ℚ) (hp : parseDec s = some step) :
    ∃ z : ℕ, step * 10 ^ roundPrecision s step = (z : ℚ) := by
  by_cases h1 : step = 1
  · refine ⟨1, ?_⟩
    rw [roundPrecision, if_pos h1, h1]
    norm_num
  · rw [roundPrecision, if_neg h1]
    exact parseDec_mul_pow s step hp

theorem roundValue_some_shape (v : ℚ) (s out : String) (h : roundValue v s = some out) :
    ∃ (step : ℚ) (k : ℤ) (zs : ℕ), parseDec s = some step ∧ ¬ step = 0 ∧
      k = roundHalfEven (v / step) ∧ step * 10 ^ roundPrecision s step = (zs : ℚ) ∧
      out = renderFixed (k * zs) (roundPrecision s step) := by
  obtain ⟨step, hp, h0, hout⟩ := roundValue_elim v s out h
  obtain ⟨zs, hzs⟩ := parseDec_mul_pow_precision s step hp
  refine ⟨step, roundHalfEven (v / step), zs, hp, h0, rfl, hzs, ?_⟩
  rw [hout]
  apply formatFixed_eq_renderFixed
  rw [mul_assoc, hzs]
  push_cast
  ring

/-! ### Helper lemmas: concrete step strings and builder evaluation -/

theorem parseDec_one : parseDec "1" = some 1 := by
  rw [show parseDec "1" = some ((digitsToNat ['1'] : ℚ)) from rfl,
    show digitsToNat ['1'] = 1 from rfl]
  norm_num

theorem parseDec_ten : parseDec "10" = some 10 := by
  rw [show parseDec "10" = some ((digitsToNat ['1', '0'] : ℚ)) from rfl,
    show digitsToNat ['1', '0'] = 10 from rfl]
  norm_num

theorem parseDec_tenth : parseDec "0.1" = some (1/10) := by
  rw [show parseDec "0.1" =
      some ((digitsToNat ['0'] : ℚ) + (digitsToNat ['1'] : ℚ) / 10 ^ 1) from rfl,
    show digitsToNat ['0'] = 0 from rfl, show digitsToNat ['1'] = 1 from rfl]
  norm_num

theorem parseDec_tick : parseDec "0.10" = some (1/10) := by
  rw [show parseDec "0.10" =
      some ((digitsToNat ['0'] : ℚ) + (digitsToNat ['1', '0'] : ℚ) / 10 ^ 2) from rfl,
    show digitsToNat ['0'] = 0 from rfl, show digitsToNat ['1', '0'] = 10 from rfl]
  norm_num

theorem parseDec_hundredth : parseDec "0.01" = some (1/100) := by
  rw [show parseDec "0.01" =
      some ((digitsToNat ['0'] : ℚ) + (digitsToNat ['0', '1'] : ℚ) / 10 ^ 2) from rfl,
    show digitsToNat ['0'] = 0 from rfl, show digitsToNat ['0', '1'] = 1 from rfl]
  norm_num

theorem parseDec_thousandth : parseDec "0.001" = some (1/1000) := by
  rw [show parseDec "0.001" =
      some ((digitsToNat ['0'] : ℚ) + (digitsToNat ['0', '0', '1'] : ℚ) / 10 ^ 3) from rfl,
    show digitsToNat ['0'] = 0 from rfl, show digitsToNat ['0', '0', '1'] = 1 from rfl]
  norm_num

theorem parseDec_padded_thousandth : parseDec "0.00100" = some (1/1000) := by
  rw [show parseDec "0.00100" =
      some ((digitsToNat ['0'] : ℚ)
        + (digitsToNat ['0', '0', '1', '0', '0'] : ℚ) / 10 ^ 5) from rfl,
    show digitsToNat ['0'] = 0 from rfl,
    show digitsToNat ['0', '0', '1', '0', '0'] = 100 from rfl]
  norm_num

theorem roundValue_qty_btc : roundValue (12345/100000) "0.001" = some "0.123" := by
  rw [roundValue_eq (12345/100000) (1/1000) "0.001" 123 3 123 parseDec_thousandth (by norm_num)
    (by rw [show (12345/100000 : ℚ) / (1/1000) = 2469/20 by norm_num]
        exact rheLT _ _ (by norm_num) (by norm_num))
    (by rw [roundPrecision, if_neg (by norm_num)]; rfl)
    (by push_cast; ring)]
  rfl

theorem roundValue_price_btc : roundValue (6500007/100) "0.10" = some "65000.1" := by
  rw [roundValue_eq (6500007/100) (1/10) "0.10" 650001 1 650001 parseDec_tick (by norm_num)
    (by rw [show (6500007/100 : ℚ) / (1/10) = 6500007/10 by norm_num,
          rheGT (6500007/10 : ℚ) 650000 (by norm_num) (by norm_num)]
        norm_num)
    (by rw [roundPrecision, if_neg (by norm_num)]; rfl)
    (by push_cast; ring)]
  rfl

theorem roundValue_one_qty : roundValue 1 "0.001" = some "1.000" := by
  rw [roundValue_eq 1 (1/1000) "0.001" 1000 3 1000 parseDec_thousandth (by norm_num)
    (by rw [show (1 : ℚ) / (1/1000) = 1000 by norm_num]
        exact rheLT _ _ (by norm_num) (by norm_num))
    (by rw [roundPrecision, if_neg (by norm_num)]; rfl)
    (by push_cast; ring)]
  rfl

theorem roundValue_two_tick : roundValue 2 "0.10" = some "2.0" := by
  rw [roundValue_eq 2 (1/10) "0.10" 20 1 20 parseDec_tick (by norm_num)
    (by rw [show (2 : ℚ) / (1/10) = 20 by norm_num]
        exact rheLT _ _ (by norm_num) (by norm_num))
    (by rw [roundPrecision, if_neg (by norm_num)]; rfl)
    (by push_cast; ring)]
  rfl

theorem roundValue_three_tick : roundValue 3 "0.10" = some "3.0" := by
  rw [roundValue_eq 3 (1/10) "0.10" 30 1 30 parseDec_tick (by norm_num)
    (by rw [show (3 : ℚ) / (1/10) = 30 by norm_num]
        exact rheLT _ _ (by norm_num) (by norm_num))
    (by rw [roundPrecision, if_neg (by norm_num)]; rfl)
    (by push_cast; ring)]
  rfl

theorem roundValue_neg_five : roundValue (-5) "0.01" = some "-5.00" := by
  rw [roundValue_eq (-5) (1/100) "0.01" (-500) 2 (-500) parseDec_hundredth (by norm_num)
    (by rw [show (-5 : ℚ) / (1/100) = -500 by norm_num]
        exact rheLT _ _ (by norm_num) (by norm_num))
    (by rw [roundPrecision, if_neg (by norm_num)]; rfl)
    (by push_cast; ring)]
  rfl

theorem roundValue_zero : roundValue 0 "0.001" = some "0.000" := by
  rw [roundValue_eq 0 (1/1000) "0.001" 0 3 0 parseDec_thousandth (by norm_num)
    (by rw [show (0 : ℚ) / (1/1000) = 0 by norm_num]
        exact rheLT _ _ (by norm_num) (by norm_num))
    (by rw [roundPrecision, if_neg (by norm_num)]; rfl)
    (by push_cast; ring)]
  rfl

theorem roundValue_seven_point_eight : roundValue (39/5) "1" = some "8" := by
  rw [roundValue_eq (39/5) 1 "1" 8 0 8 parseDec_one (by norm_num)
    (by rw [show (39/5 : ℚ) / 1 = 39/5 by norm_num,
          rheGT (39/5 : ℚ) 7 (by norm_num) (by norm_num)]
        norm_num)
    (by rw [roundPrecision, if_pos rfl])
    (by push_cast; ring)]
  rfl

theorem roundValue_23_ten : roundValue 23 "10" = some "20.0" := by
  rw [roundValue_eq 23 10 "10" 2 1 200 parseDec_ten (by norm_num)
    (by rw [show (23 : ℚ) / 10 = 23/10 by norm_num]
        exact rheLT _ _ (by norm_num) (by norm_num))
    (by rw [roundPrecision, if_neg (by norm_num)]; rfl)
    (by push_cast; ring)]
  rfl

theorem roundValue_step_one (q : ℚ) :
    roundValue q "1" = some (renderFixed (roundHalfEven q) 0) := by
  apply roundValue_eq q 1 "1" (roundHalfEven q) 0 (roundHalfEven q) parseDec_one (by norm_num)
  · rw [div_one]
  · rw [roundPrecision, if_pos rfl]
  · ring

theorem placeMarketOrder_eval (info : List SymbolInfo) (symbol side : String) (q : ℚ)
    (fd : List (String × FilterRec)) (rq : String)
    (hfd : getSymbolFilters info symbol = .ok fd)
    (hq : roundValue q (qtyStepSize fd) = some rq) :
    placeMarketOrder info symbol side q = .ok ⟨symbol, side, "MARKET", rq, none, none, none⟩ := by
  simp only [placeMarketOrder, hfd, hq]

theorem placeLimitOrder_eval (info : List SymbolInfo) (symbol side : String) (q pr : ℚ)
    (fd : List (String × FilterRec)) (rq rp : String)
    (hfd : getSymbolFilters info symbol = .ok fd)
    (hq : roundValue q (qtyStepSize fd) = some rq)
    (hpr : roundValue pr (priceTickSize fd) = some rp) :
    placeLimitOrder info symbol side q pr
      = .ok ⟨symbol, side, "LIMIT", rq, some rp, none, some "GTC"⟩ := by
  simp only [placeLimitOrder, hfd, hq, hpr]

theorem placeStopLossLimit_eval (info : List SymbolInfo) (symbol side : String) (q pr sp : ℚ)
    (fd : List (String × FilterRec)) (rq rp rsp : String)
    (hfd : getSymbolFilters info symbol = .ok fd)
    (hq : roundValue q (qtyStepSize fd) = some rq)
    (hpr : roundValue pr (priceTickSize fd) = some rp)
    (hsp : roundValue sp (priceTickSize fd) = some rsp) :
    placeStopLossLimit info symbol side q pr sp
      = .ok ⟨symbol, side, "STOP_LOSS_LIMIT", rq, some rp, some rsp, some "GTC"⟩ := by
  simp only [placeStopLossLimit, hfd, hq, hpr, hsp]

/-- Exchange metadata fixture: BTCUSDT with `LOT_SIZE.stepSize = "0.001"`
and `PRICE_FILTER.tickSize = "0.10"`. -/
def infoBTC : List SymbolInfo :=
  [⟨"BTCUSDT",
    [⟨"LOT_SIZE", [("stepSize", "0.001"), ("minQty", "0.001")]⟩,
     ⟨"PRICE_FILTER", [("tickSize", "0.10"), ("minPrice", "0.10")]⟩]⟩]

/-- The filter dict `_get_symbol_filters` builds for `infoBTC`. -/
def fdBTC : List (String × FilterRec) :=
  filtersDict
    [⟨"LOT_SIZE", [("stepSize", "0.001"), ("minQty", "0.001")]⟩,
     ⟨"PRICE_FILTER", [("tickSize", "0.10"), ("minPrice", "0.10")]⟩]

/-- Metadata fixture whose symbol entry carries no filters at all. -/
def infoNoFilters : List SymbolInfo := [⟨"BTCUSDT", []⟩]

/-- Metadata fixture with a whole-number step string: `LOT_SIZE.stepSize = "10"`. -/
def infoTen : List SymbolInfo := [⟨"FOOUSDT", [⟨"LOT_SIZE", [("stepSize", "10")]⟩]⟩]

/-- The filter dict `_get_symbol_filters` builds for `infoTen`. -/
def fdTen : List (String × FilterRec) := filtersDict [⟨"LOT_SIZE", [("stepSize", "10")]⟩]

theorem getSymbolFilters_btc : getSymbolFilters infoBTC "BTCUSDT" = .ok fdBTC := rfl

theorem qtyStepSize_btc : qtyStepSize fdBTC = "0.001" := rfl

theorem priceTickSize_btc : priceTickSize fdBTC = "0.10" := rfl

theorem roundValue_seven_sixteen : roundValue (179/25) "0.1" = some "7.2" := by
  rw [roundValue_eq (179/25) (1/10) "0.1" 72 1 72 parseDec_tenth (by norm_num)
    (by rw [show (179/25 : ℚ) / (1/10) = 358/5 by norm_num,
          rheGT (358/5 : ℚ) 71 (by norm_num) (by norm_num)]
        norm_num)
    (by rw [roundPrecision, if_neg (by norm_num)]; rfl)
    (by push_cast; ring)]
  rfl

theorem parseDecSigned_72 : parseDecSigned "7.2" = some (36/5) := by
  rw [show parseDecSigned "7.2" =
      some ((digitsToNat ['7'] : ℚ) + (digitsToNat ['2'] : ℚ) / 10 ^ 1) from rfl,
    show digitsToNat ['7'] = 7 from rfl, show digitsToNat ['2'] = 2 from rfl]
  norm_num

theorem limit_btc_request :
    placeLimitOrder infoBTC "BTCUSDT" "BUY" (12345/100000) (6500007/100)
      = .ok ⟨"BTCUSDT", "BUY", "LIMIT", "0.123", some "65000.1", none, some "GTC"⟩ := by
  apply placeLimitOrder_eval infoBTC "BTCUSDT" "BUY" (12345/100000) (6500007/100) fdBTC
    "0.123" "65000.1" getSymbolFilters_btc
  · rw [qtyStepSize_btc]
    exact roundValue_qty_btc
  · rw [priceTickSize_btc]
    exact roundValue_price_btc

theorem market_btc_request :
    placeMarketOrder infoBTC "BTCUSDT" "BUY" 1
      = .ok ⟨"BTCUSDT", "BUY", "MARKET", "1.000", none, none, none⟩ := by
  apply placeMarketOrder_eval infoBTC "BTCUSDT" "BUY" 1 fdBTC "1.000" getSymbolFilters_btc
  rw [qtyStepSize_btc]
  exact roundValue_one_qty

theorem sll_btc_request :
    placeStopLossLimit infoBTC "BTCUSDT" "SELL" 1 2 3
      = .ok ⟨"BTCUSDT", "SELL", "STOP_LOSS_LIMIT", "1.000", some "2.0", some "3.0",
          some "GTC"⟩ := by
  apply placeStopLossLimit_eval infoBTC "BTCUSDT" "SELL" 1 2 3 fdBTC "1.000" "2.0" "3.0"
    getSymbolFilters_btc
  · rw [qtyStepSize_btc]
    exact roundValue_one_qty
  · rw [priceTickSize_btc]
    exact roundValue_two_tick
  · rw [priceTickSize_btc]
    exact roundValue_three_tick

/-! ### Claim theorems -/

/-- C1 (counterexample): with `LOT_SIZE.stepSize = "0.001"` and
`PRICE_FILTER.tickSize = "0.10"`, the LIMIT order built from
quantity `0.12345`, price `65000.07`, side BUY carries the price string
`"65000.1"`, not `"65000.10"` as the claim states: the tick string
`"0.10"` is stripped of its trailing zero, so the target precision is one
fractional digit. -/
theorem limit_order_price_one_digit_cex :
    placeLimitOrder infoBTC "BTCUSDT" "BUY" (12345/100000) (6500007/100)
      = .ok ⟨"BTCUSDT", "BUY", "LIMIT", "0.123", some "65000.1", none, some "GTC"⟩ ∧
    ("65000.1" : String) ≠ "65000.10" :=
  ⟨limit_btc_request, by decide⟩

/-- C1 (amended): with `LOT_SIZE.stepSize = "0.001"` and
`PRICE_FILTER.tickSize = "0.10"`, building the LIMIT order from
`{quantity = 0.12345, price = 65000.07, side = BUY}` produces a request
with quantity string `"0.123"`, price string `"65000.1"` (one fractional
digit, since the tick string strips to precision 1), and
timeInForce GTC. -/
theorem limit_order_btc_normalized :
    placeLimitOrder infoBTC "BTCUSDT" "BUY" (12345/100000) (6500007/100)
      = .ok ⟨"BTCUSDT", "BUY", "LIMIT", "0.123", some "65000.1", none, some "GTC"⟩ :=
  limit_btc_request

/-- Core of the request-string invariant: every string produced by
`_round_value` parses back to an exact integer multiple of the parsed
step and carries exactly the target precision of fractional digits. -/
theorem roundValue_multiple_digits_core (v step : ℚ) (s out : String)
    (hp : parseDec s = some step) (h : roundValue v s = some out) :
    (∃ k : ℤ, parseDecSigned out = some ((k : ℚ) * step)) ∧
    fracDigits out = roundPrecision s step := by
  obtain ⟨step', k, zs, hp', h0, hk, hzs, hout⟩ := roundValue_some_shape v s out h
  have hse : step' = step := by
    rw [hp] at hp'
    exact (Option.some.inj hp').symm
  rw [hse] at h0 hk hzs hout
  have h10 : ((10 : ℚ) ^ roundPrecision s step) ≠ 0 := by positivity
  have hstep : step = (zs : ℚ) / 10 ^ roundPrecision s step := (eq_div_iff h10).mpr hzs
  constructor
  · refine ⟨k, ?_⟩
    rw [hout, parseDecSigned_renderFixed]
    congr 1
    rw [div_eq_iff h10, mul_assoc, hzs]
    push_cast
    ring
  · rw [hout, fracDigits, fracDigitsL_renderFixed]

/-- C2 (counterexample): the claim's digit-count rule — fractional digits
implied by the step/tick size after stripping its trailing zeros — fails
on a request built with the whole-number step string `"10"`: the MARKET
order for quantity 23 carries the quantity string `"20.0"` with one
fractional digit, while the stripped step `"10"` implies zero fractional
digits. -/
theorem request_digit_count_cex :
    placeMarketOrder infoTen "FOOUSDT" "BUY" 23
      = .ok ⟨"FOOUSDT", "BUY", "MARKET", "20.0", none, none, none⟩ ∧
    fracDigits "20.0" = 1 ∧ parseDec "10" = some 10 ∧ specFracDigits "10" = 0 := by
  refine ⟨?_, by decide, parseDec_ten, by decide⟩
  apply placeMarketOrder_eval infoTen "FOOUSDT" "BUY" 23 fdTen "20.0" rfl
  rw [show qtyStepSize fdTen = "10" from rfl]
  exact roundValue_23_ten

/-- C2 (amended): in every request produced by any of the three builders,
every numeric string (quantity, and price/stopPrice where present) parses
back to an exact integer multiple of its governing step/tick size — the
parsed `LOT_SIZE.stepSize` for the quantity, the parsed
`PRICE_FILTER.tickSize` for both prices — and carries exactly the code's
target precision of fractional digits for that step/tick string.  That
target precision coincides with the claim's rule — the number of
fractional digits of the step/tick string after stripping its trailing
zeros — whenever the step parses to 1 or the step string contains a
decimal point; for a step string without a decimal point it is instead
the length of the entire string with trailing zeros stripped. -/
theorem request_numeric_strings_invariant (info : List SymbolInfo) (symbol side : String)
    (q pr sp : ℚ) (r rl rs : OrderRequest) :
    (placeMarketOrder info symbol side q = .ok r →
      ∃ fd stepQ, getSymbolFilters info symbol = .ok fd ∧
        parseDec (qtyStepSize fd) = some stepQ ∧
        (∃ k : ℤ, parseDecSigned r.quantity = some ((k : ℚ) * stepQ)) ∧
        fracDigits r.quantity = roundPrecision (qtyStepSize fd) stepQ) ∧
    (placeLimitOrder info symbol side q pr = .ok rl →
      ∃ fd stepQ stepP, getSymbolFilters info symbol = .ok fd ∧
        parseDec (qtyStepSize fd) = some stepQ ∧
        parseDec (priceTickSize fd) = some stepP ∧
        (∃ k : ℤ, parseDecSigned rl.quantity = some ((k : ℚ) * stepQ)) ∧
        fracDigits rl.quantity = roundPrecision (qtyStepSize fd) stepQ ∧
        (∃ ps, rl.price = some ps ∧
          (∃ k : ℤ, parseDecSigned ps = some ((k : ℚ) * stepP)) ∧
          fracDigits ps = roundPrecision (priceTickSize fd) stepP)) ∧
    (placeStopLossLimit info symbol side q pr sp = .ok rs →
      ∃ fd stepQ stepP, getSymbolFilters info symbol = .ok fd ∧
        parseDec (qtyStepSize fd) = some stepQ ∧
        parseDec (priceTickSize fd) = some stepP ∧
        (∃ k : ℤ, parseDecSigned rs.quantity = some ((k : ℚ) * stepQ)) ∧
        fracDigits rs.quantity = roundPrecision (qtyStepSize fd) stepQ ∧
        (∃ ps, rs.price = some ps ∧
          (∃ k : ℤ, parseDecSigned ps = some ((k : ℚ) * stepP)) ∧
          fracDigits ps = roundPrecision (priceTickSize fd) stepP) ∧
        (∃ sps, rs.stopPrice = some sps ∧
          (∃ k : ℤ, parseDecSigned sps = some ((k : ℚ) * stepP)) ∧
          fracDigits sps = roundPrecision (priceTickSize fd) stepP)) ∧
    (∀ (t : String) (st : ℚ), parseDec t = some st →
      (st = 1 → roundPrecision t st = 0) ∧
      ('.' ∈ t.data → st ≠ 1 → roundPrecision t st = specFracDigits t) ∧
      ('.' ∉ t.data → st ≠ 1 →
        roundPrecision t st = (stripTrailingZeros t.data).length)) := by
  refine ⟨?_, ?_, ?_, fun t st hpt =>
    ⟨fun h1 => by rw [roundPrecision, if_pos h1],
     fun hdot h1 => roundPrecision_dotted t st hpt hdot h1,
     fun hnd h1 => roundPrecision_undotted t st hnd h1⟩⟩
  · intro h
    cases hf : getSymbolFilters info symbol with
    | error e =>
      simp only [placeMarketOrder, hf] at h
      exact Except.noConfusion h
    | ok fd =>
      simp only [placeMarketOrder, hf] at h
      cases hq : roundValue q (qtyStepSize fd) with
      | none =>
        simp only [hq] at h
        exact Except.noConfusion h
      | some rq =>
        simp only [hq] at h
        obtain ⟨stepQ, hpq, _, _⟩ := roundValue_elim q _ rq hq
        obtain ⟨hmul, hdig⟩ := roundValue_multiple_digits_core q stepQ _ rq hpq hq
        have hr := Except.ok.inj h
        refine ⟨fd, stepQ, rfl, hpq, ?_, ?_⟩
        · rw [← hr]
          exact hmul
        · rw [← hr]
          exact hdig
  · intro h
    cases hf : getSymbolFilters info symbol with
    | error e =>
      simp only [placeLimitOrder, hf] at h
      exact Except.noConfusion h
    | ok fd =>
      simp only [placeLimitOrder, hf] at h
      cases hq : roundValue q (qtyStepSize fd) with
      | none =>
        simp only [hq] at h
        exact Except.noConfusion h
      | some rq =>
        cases hpr : roundValue pr (priceTickSize fd) with
        | none =>
          simp only [hq, hpr] at h
          exact Except.noConfusion h
        | some rp =>
          simp only [hq, hpr] at h
          obtain ⟨stepQ, hpq, _, _⟩ := roundValue_elim q _ rq hq
          obtain ⟨hmulq, hdigq⟩ := roundValue_multiple_digits_core q stepQ _ rq hpq hq
          obtain ⟨stepP, hpp, _, _⟩ := roundValue_elim pr _ rp hpr
          obtain ⟨hmulp, hdigp⟩ := roundValue_multiple_digits_core pr stepP _ rp hpp hpr
          have hr := Except.ok.inj h
          refine ⟨fd, stepQ, stepP, rfl, hpq, hpp, ?_, ?_, ⟨rp, ?_, hmulp, hdigp⟩⟩
          · rw [← hr]
            exact hmulq
          · rw [← hr]
            exact hdigq
          · rw [← hr]
  · intro h
    cases hf : getSymbolFilters info symbol with
    | error e =>
      simp only [placeStopLossLimit, hf] at h
      exact Except.noConfusion h
    | ok fd =>
      simp only [placeStopLossLimit, hf] at h
      cases hq : roundValue q (qtyStepSize fd) with
      | none =>
        simp only [hq] at h
        exact Except.noConfusion h
      | some rq =>
        cases hpr : roundValue pr (priceTickSize fd) with
        | none =>
          simp only [hq, hpr] at h
          exact Except.noConfusion h
        | some rp =>
          cases hsp : roundValue sp (priceTickSize fd) with
          | none =>
            simp only [hq, hpr, hsp] at h
            exact Except.noConfusion h
          | some rsp =>
            simp only [hq, hpr, hsp] at h
            obtain ⟨stepQ, hpq, _, _⟩ := roundValue_elim q _ rq hq
            obtain ⟨hmulq, hdigq⟩ := roundValue_multiple_digits_core q stepQ _ rq hpq hq
            obtain ⟨stepP, hpp, _, _⟩ := roundValue_elim pr _ rp hpr
            obtain ⟨hmulp, hdigp⟩ := roundValue_multiple_digits_core pr stepP _ rp hpp hpr
            obtain ⟨stepP', hpp', _, _⟩ := roundValue_elim sp _ rsp hsp
            have hse : stepP' = stepP := by
              rw [hpp] at hpp'
              exact (Option.some.inj hpp').symm
            rw [hse] at hpp'
            obtain ⟨hmuls, hdigs⟩ := roundValue_multiple_digits_core sp stepP _ rsp hpp' hsp
            have hr := Except.ok.inj h
            refine ⟨fd, stepQ, stepP, rfl, hpq, hpp, ?_, ?_, ⟨rp, ?_, hmulp, hdigp⟩,
              ⟨rsp, ?_, hmuls, hdigs⟩⟩
            · rw [← hr]
              exact hmulq
            · rw [← hr]
              exact hdigq
            · rw [← hr]
            · rw [← hr]

/-- C2 witness: the STOP_LOSS_LIMIT build against the BTCUSDT fixture,
plus the precision rule instantiated at the dotted tick string `"0.10"`. -/
theorem request_numeric_strings_invariant_witness :
    (roundPrecision "0.10" (1/10) = specFracDigits "0.10") ∧
    ∃ fd stepQ stepP, getSymbolFilters infoBTC "BTCUSDT" = .ok fd ∧
      parseDec (qtyStepSize fd) = some stepQ ∧
      parseDec (priceTickSize fd) = some stepP ∧
      (∃ k : ℤ, parseDecSigned (⟨"BTCUSDT", "SELL", "STOP_LOSS_LIMIT", "1.000", some "2.0",
          some "3.0", some "GTC"⟩ : OrderRequest).quantity = some ((k : ℚ) * stepQ)) ∧
      fracDigits (⟨"BTCUSDT", "SELL", "STOP_LOSS_LIMIT", "1.000", some "2.0", some "3.0",
          some "GTC"⟩ : OrderRequest).quantity = roundPrecision (qtyStepSize fd) stepQ ∧
      (∃ ps, (⟨"BTCUSDT", "SELL", "STOP_LOSS_LIMIT", "1.000", some "2.0", some "3.0",
          some "GTC"⟩ : OrderRequest).price = some ps ∧
        (∃ k : ℤ, parseDecSigned ps = some ((k : ℚ) * stepP)) ∧
        fracDigits ps = roundPrecision (priceTickSize fd) stepP) ∧
      (∃ sps, (⟨"BTCUSDT", "SELL", "STOP_LOSS_LIMIT", "1.000", some "2.0", some "3.0",
          some "GTC"⟩ : OrderRequest).stopPrice = some sps ∧
        (∃ k : ℤ, parseDecSigned sps = some ((k : ℚ) * stepP)) ∧
        fracDigits sps = roundPrecision (priceTickSize fd) stepP) :=
  ⟨((request_numeric_strings_invariant infoBTC "BTCUSDT" "SELL" 1 2 3
      ⟨"BTCUSDT", "SELL", "STOP_LOSS_LIMIT", "1.000", some "2.0", some "3.0", some "GTC"⟩
      ⟨"BTCUSDT", "SELL", "STOP_LOSS_LIMIT", "1.000", some "2.0", some "3.0", some "GTC"⟩
      ⟨"BTCUSDT", "SELL", "STOP_LOSS_LIMIT", "1.000", some "2.0", some "3.0",
        some "GTC"⟩).2.2.2 "0.10" (1/10) parseDec_tick).2.1 (by decide) (by norm_num),
   (request_numeric_strings_invariant infoBTC "BTCUSDT" "SELL" 1 2 3
    ⟨"BTCUSDT", "SELL", "STOP_LOSS_LIMIT", "1.000", some "2.0", some "3.0", some "GTC"⟩
    ⟨"BTCUSDT", "SELL", "STOP_LOSS_LIMIT", "1.000", some "2.0", some "3.0", some "GTC"⟩
    ⟨"BTCUSDT", "SELL", "STOP_LOSS_LIMIT", "1.000", some "2.0", some "3.0",
      some "GTC"⟩).2.2.1 sll_btc_request⟩

/-- C3 (counterexample): for the step string `"10"` (no decimal point,
parses to `10 ≠ 1`) the code's target precision is `1` — the length of the
whole string with trailing zeros stripped — while the number of fractional
digits of `"10"` is `0`; rounding `23` yields `"20.0"`, which has one
fractional digit, not an integer string. -/
theorem precision_undotted_cex :
    parseDec "10" = some 10 ∧ (10 : ℚ) ≠ 1 ∧ roundPrecision "10" 10 = 1 ∧
    specFracDigits "10" = 0 ∧ roundValue 23 "10" = some "20.0" ∧ fracDigits "20.0" = 1 := by
  refine ⟨parseDec_ten, by norm_num, ?_, by decide, roundValue_23_ten, by decide⟩
  rw [roundPrecision, if_neg (by norm_num)]
  rfl

/-- C3 (amended): the target precision is `0` when the step string parses
to `1` (so step `"1"` normalizes `7.8` to the integer string `"8"`), and
for step strings containing a decimal point it equals the number of
fractional digits after stripping trailing zeros from the fractional part
(`"0.00100"` and `"0.001"` both give precision 3); for step strings
without a decimal point the precision is instead the length of the whole
string with trailing zeros stripped. -/
theorem precision_rule (s : String) (step : ℚ) (hp : parseDec s = some step) :
    (step = 1 → roundPrecision s step = 0) ∧
    ('.' ∈ s.data → step ≠ 1 → roundPrecision s step = specFracDigits s) ∧
    roundValue (39/5) "1" = some "8" ∧
    roundPrecision "0.00100" (1/1000) = 3 ∧ roundPrecision "0.001" (1/1000) = 3 := by
  refine ⟨fun h1 => by rw [roundPrecision, if_pos h1],
    fun hdot h1 => roundPrecision_dotted s step hp hdot h1,
    roundValue_seven_point_eight, ?_, ?_⟩
  · rw [roundPrecision, if_neg (by norm_num)]
    rfl
  · rw [roundPrecision, if_neg (by norm_num)]
    rfl

/-- C3 witness at step string `"0.001"`. -/
theorem precision_rule_witness :
    roundPrecision "0.001" (1/1000) = specFracDigits "0.001" ∧
    roundValue (39/5) "1" = some "8" :=
  ⟨(precision_rule "0.001" (1/1000) parseDec_thousandth).2.1 (by decide) (by norm_num),
   (precision_rule "0.001" (1/1000) parseDec_thousandth).2.2.1⟩

/-- C4 (counterexample): `_round_value` performs no positivity check:
rounding `-5` with step `"0.01"` does not fail — it returns the formatted
string `"-5.00"`. -/
theorem roundValue_negative_succeeds_cex : roundValue (-5) "0.01" = some "-5.00" :=
  roundValue_neg_five

/-- C4 (amended): the rounding operation validates nothing about the
value: a value `≤ 0` is rounded and formatted like any other, so
`round(-5, "0.01")` returns `"-5.00"` rather than failing, and a value of
exactly `0` rounds to the zero string at the target precision
(`"0.000"` for step `"0.001"`). -/
theorem roundValue_no_positivity_check :
    roundValue (-5) "0.01" = some "-5.00" ∧ roundValue 0 "0.001" = some "0.000" :=
  ⟨roundValue_neg_five, roundValue_zero⟩

/-- C5: a filter set lacking a required filter kind never aborts the
request.  If `LOT_SIZE` is absent, the quantity step falls back to `"1"`,
the quantity always normalizes to a 0-decimal string, a MARKET order
builds outright, and a LIMIT or STOP_LOSS_LIMIT order builds whenever its
price (and stop price) normalize — the missing `LOT_SIZE` itself never
aborts any of the three types.  If `PRICE_FILTER` is absent, the tick
falls back to `"1"`, and a LIMIT or STOP_LOSS_LIMIT order builds whenever
the quantity normalizes, with every price string having 0 fractional
digits. -/
theorem missing_filter_fallback (info : List SymbolInfo) (symbol side : String)
    (fd : List (String × FilterRec)) (q pr sp : ℚ)
    (hfd : getSymbolFilters info symbol = .ok fd) :
    (dictGet fd "LOT_SIZE" = none →
      qtyStepSize fd = "1" ∧
      roundValue q (qtyStepSize fd) = some (renderFixed (roundHalfEven q) 0) ∧
      fracDigits (renderFixed (roundHalfEven q) 0) = 0 ∧
      placeMarketOrder info symbol side q
        = .ok ⟨symbol, side, "MARKET", renderFixed (roundHalfEven q) 0,
            none, none, none⟩ ∧
      (∀ rp, roundValue pr (priceTickSize fd) = some rp →
        placeLimitOrder info symbol side q pr
          = .ok ⟨symbol, side, "LIMIT", renderFixed (roundHalfEven q) 0,
              some rp, none, some "GTC"⟩) ∧
      (∀ rp rsp, roundValue pr (priceTickSize fd) = some rp →
        roundValue sp (priceTickSize fd) = some rsp →
        placeStopLossLimit info symbol side q pr sp
          = .ok ⟨symbol, side, "STOP_LOSS_LIMIT", renderFixed (roundHalfEven q) 0,
              some rp, some rsp, some "GTC"⟩)) ∧
    (dictGet fd "PRICE_FILTER" = none →
      priceTickSize fd = "1" ∧
      (∀ rq, roundValue q (qtyStepSize fd) = some rq →
        placeLimitOrder info symbol side q pr
          = .ok ⟨symbol, side, "LIMIT", rq,
              some (renderFixed (roundHalfEven pr) 0), none, some "GTC"⟩ ∧
        fracDigits (renderFixed (roundHalfEven pr) 0) = 0 ∧
        placeStopLossLimit info symbol side q pr sp
          = .ok ⟨symbol, side, "STOP_LOSS_LIMIT", rq,
              some (renderFixed (roundHalfEven pr) 0),
              some (renderFixed (roundHalfEven sp) 0), some "GTC"⟩ ∧
        fracDigits (renderFixed (roundHalfEven sp) 0) = 0)) := by
  constructor
  · intro hlot
    have hq1 : qtyStepSize fd = "1" := by simp only [qtyStepSize, hlot]
    have hrv : roundValue q (qtyStepSize fd) = some (renderFixed (roundHalfEven q) 0) := by
      rw [hq1]
      exact roundValue_step_one q
    refine ⟨hq1, hrv, fracDigitsL_renderFixed (roundHalfEven q) 0, ?_, ?_, ?_⟩
    · exact placeMarketOrder_eval info symbol side q fd _ hfd hrv
    · intro rp hrp
      exact placeLimitOrder_eval info symbol side q pr fd _ rp hfd hrv hrp
    · intro rp rsp hrp hrsp
      exact placeStopLossLimit_eval info symbol side q pr sp fd _ rp rsp hfd hrv hrp hrsp
  · intro hpf
    have hp1 : priceTickSize fd = "1" := by simp only [priceTickSize, hpf]
    have hrp : roundValue pr (priceTickSize fd)
        = some (renderFixed (roundHalfEven pr) 0) := by
      rw [hp1]
      exact roundValue_step_one pr
    have hrsp : roundValue sp (priceTickSize fd)
        = some (renderFixed (roundHalfEven sp) 0) := by
      rw [hp1]
      exact roundValue_step_one sp
    refine ⟨hp1, ?_⟩
    intro rq hrq
    exact ⟨placeLimitOrder_eval info symbol side q pr fd rq _ hfd hrq hrp,
      fracDigitsL_renderFixed (roundHalfEven pr) 0,
      placeStopLossLimit_eval info symbol side q pr sp fd rq _ _ hfd hrq hrp hrsp,
      fracDigitsL_renderFixed (roundHalfEven sp) 0⟩

/-- C5 witness: a symbol entry with an empty filter list (both required
kinds absent); all three order types build, with 0-decimal strings. -/
theorem missing_filter_fallback_witness :
    qtyStepSize (filtersDict []) = "1" ∧ priceTickSize (filtersDict []) = "1" ∧
    placeMarketOrder infoNoFilters "BTCUSDT" "BUY" (39/5)
      = .ok ⟨"BTCUSDT", "BUY", "MARKET", renderFixed (roundHalfEven (39/5 : ℚ)) 0,
          none, none, none⟩ ∧
    fracDigits (renderFixed (roundHalfEven (39/5 : ℚ)) 0) = 0 ∧
    placeLimitOrder infoNoFilters "BTCUSDT" "BUY" (39/5) (39/5)
      = .ok ⟨"BTCUSDT", "BUY", "LIMIT", renderFixed (roundHalfEven (39/5 : ℚ)) 0,
          some (renderFixed (roundHalfEven (39/5 : ℚ)) 0), none, some "GTC"⟩ ∧
    placeStopLossLimit infoNoFilters "BTCUSDT" "BUY" (39/5) (39/5) (39/5)
      = .ok ⟨"BTCUSDT", "BUY", "STOP_LOSS_LIMIT", renderFixed (roundHalfEven (39/5 : ℚ)) 0,
          some (renderFixed (roundHalfEven (39/5 : ℚ)) 0),
          some (renderFixed (roundHalfEven (39/5 : ℚ)) 0), some "GTC"⟩ := by
  have H := missing_filter_fallback infoNoFilters "BTCUSDT" "BUY" (filtersDict [])
    (39/5) (39/5) (39/5) rfl
  obtain ⟨hq1, hrv, hfq, hmkt, hlim, hsll⟩ := H.1 rfl
  have hp1 : priceTickSize (filtersDict []) = "1" := (H.2 rfl).1
  have hrp : roundValue (39/5 : ℚ) (priceTickSize (filtersDict []))
      = some (renderFixed (roundHalfEven (39/5 : ℚ)) 0) := by
    rw [hp1]
    exact roundValue_step_one (39/5)
  exact ⟨hq1, hp1, hmkt, hfq, hlim _ hrp, hsll _ _ hrp hrp⟩

/-- C6: in the menu dispatch, an order choice (`2`/`3`/`4`) with a side
whose uppercase form is neither BUY nor SELL is rejected as an invalid
side, and an unrecognized menu selection is rejected as an invalid
selection; in both cases no order request is built or dispatched. -/
theorem invalid_side_and_selection (info : List SymbolInfo)
    (choice symbolRaw sideRaw : String) (q pr sp : ℚ) :
    ((choice = "2" ∨ choice = "3" ∨ choice = "4") →
      strUpper sideRaw ≠ "BUY" → strUpper sideRaw ≠ "SELL" →
      handleChoice info choice symbolRaw sideRaw q pr sp = .invalidSide) ∧
    (choice ≠ "1" → choice ≠ "2" → choice ≠ "3" → choice ≠ "4" → choice ≠ "5" →
      choice ≠ "6" → choice ≠ "7" → choice ≠ "8" →
      handleChoice info choice symbolRaw sideRaw q pr sp = .invalidSelection) := by
  constructor
  · intro hc h1 h2
    rcases hc with h | h | h <;> subst h <;>
      rw [handleChoice, if_neg (by decide), if_pos (by decide), if_pos ⟨h1, h2⟩]
  · intro h1 h2 h3 h4 h5 h6 h7 h8
    rw [handleChoice, if_neg h1,
      if_neg (fun hor => hor.elim h2 (fun ho => ho.elim h3 h4)),
      if_neg h5, if_neg h6, if_neg h7, if_neg h8]

/-- C6 witness: side `"hold"` on the market-order choice, and the
unrecognized selection `"9"`. -/
theorem invalid_side_and_selection_witness :
    handleChoice [] "2" "BTCUSDT" "hold" 1 1 1 = .invalidSide ∧
    handleChoice [] "9" "BTCUSDT" "BUY" 1 1 1 = .invalidSelection :=
  ⟨(invalid_side_and_selection [] "2" "BTCUSDT" "hold" 1 1 1).1 (Or.inl rfl)
      (by decide) (by decide),
   (invalid_side_and_selection [] "9" "BTCUSDT" "BUY" 1 1 1).2 (by decide) (by decide)
      (by decide) (by decide) (by decide) (by decide) (by decide) (by decide)⟩

/-- C7: re-normalizing an already-normalized value with the same step
string yields the identical string: if `roundValue v s = out` and the
string `out` parses back to the value `vParsed`, then
`roundValue vParsed s = out` as well. -/
theorem roundValue_idempotent (v vParsed step : ℚ) (s out : String)
    (hp : parseDec s = some step) (h : roundValue v s = some out)
    (hback : parseDecSigned out = some vParsed) :
    roundValue vParsed s = some out := by
  obtain ⟨step', k, zs, hp', h0, hk, hzs, hout⟩ := roundValue_some_shape v s out h
  have hse : step' = step := by
    rw [hp] at hp'
    exact (Option.some.inj hp').symm
  rw [hse] at h0 hk hzs hout
  have h10 : ((10 : ℚ) ^ roundPrecision s step) ≠ 0 := by positivity
  have hstep : step = (zs : ℚ) / 10 ^ roundPrecision s step := (eq_div_iff h10).mpr hzs
  have hvq : vParsed = (k : ℚ) * step := by
    rw [hout, parseDecSigned_renderFixed] at hback
    have hval := Option.some.inj hback
    rw [← hval, div_eq_iff h10, mul_assoc, hzs]
    push_cast
    ring
  have hdiv : vParsed / step = ((k : ℤ) : ℚ) := by
    rw [hvq]
    exact mul_div_cancel_right₀ _ h0
  simp only [roundValue, hp, if_neg h0, hdiv, rheInt]
  rw [hout]
  congr 1
  apply formatFixed_eq_renderFixed
  rw [mul_assoc, hzs]
  push_cast
  ring

/-- C7 witness: `7.16` rounds to `"7.2"` with step `"0.1"`, and `7.2`
rounds to `"7.2"` again. -/
theorem roundValue_idempotent_witness : roundValue (36/5) "0.1" = some "7.2" :=
  roundValue_idempotent (179/25) (36/5) (1/10) "0.1" "7.2" parseDec_tenth
    roundValue_seven_sixteen parseDecSigned_72

/-- C8: a MARKET request carries only the quantity numeric field — its
price, stopPrice and timeInForce are absent; a STOP_LOSS_LIMIT request
always carries price and stopPrice and has timeInForce GTC. -/
theorem order_type_field_presence (info : List SymbolInfo) (symbol side : String)
    (q pr sp : ℚ) (r rs : OrderRequest) :
    (placeMarketOrder info symbol side q = .ok r →
      r.price = none ∧ r.stopPrice = none ∧ r.timeInForce = none ∧ r.type = "MARKET") ∧
    (placeStopLossLimit info symbol side q pr sp = .ok rs →
      rs.price.isSome = true ∧ rs.stopPrice.isSome = true ∧
        rs.timeInForce = some "GTC" ∧ rs.type = "STOP_LOSS_LIMIT") := by
  constructor
  · intro h
    cases hf : getSymbolFilters info symbol with
    | error e =>
      simp only [placeMarketOrder, hf] at h
      exact Except.noConfusion h
    | ok fd =>
      simp only [placeMarketOrder, hf] at h
      cases hq : roundValue q (qtyStepSize fd) with
      | none =>
        simp only [hq] at h
        exact Except.noConfusion h
      | some rq =>
        simp only [hq] at h
        rw [← Except.ok.inj h]
        exact ⟨rfl, rfl, rfl, rfl⟩
  · intro h
    cases hf : getSymbolFilters info symbol with
    | error e =>
      simp only [placeStopLossLimit, hf] at h
      exact Except.noConfusion h
    | ok fd =>
      simp only [placeStopLossLimit, hf] at h
      cases hq : roundValue q (qtyStepSize fd) with
      | none =>
        simp only [hq] at h
        exact Except.noConfusion h
      | some rq =>
        cases hpr : roundValue pr (priceTickSize fd) with
        | none =>
          simp only [hq, hpr] at h
          exact Except.noConfusion h
        | some rp =>
          cases hsp : roundValue sp (priceTickSize fd) with
          | none =>
            simp only [hq, hpr, hsp] at h
            exact Except.noConfusion h
          | some rsp =>
            simp only [hq, hpr, hsp] at h
            rw [← Except.ok.inj h]
            exact ⟨rfl, rfl, rfl, rfl⟩

/-- C8 witness: a successful MARKET build and a successful
STOP_LOSS_LIMIT build against the BTCUSDT fixture. -/
theorem order_type_field_presence_witness :
    ((⟨"BTCUSDT", "BUY", "MARKET", "1.000", none, none, none⟩ : OrderRequest).price = none ∧
      (⟨"BTCUSDT", "BUY", "MARKET", "1.000", none, none, none⟩ : OrderRequest).stopPrice = none ∧
      (⟨"BTCUSDT", "BUY", "MARKET", "1.000", none, none, none⟩ : OrderRequest).timeInForce = none ∧
      (⟨"BTCUSDT", "BUY", "MARKET", "1.000", none, none, none⟩ : OrderRequest).type = "MARKET") ∧
    ((⟨"BTCUSDT", "SELL", "STOP_LOSS_LIMIT", "1.000", some "2.0", some "3.0",
        some "GTC"⟩ : OrderRequest).price.isSome = true ∧
      (⟨"BTCUSDT", "SELL", "STOP_LOSS_LIMIT", "1.000", some "2.0", some "3.0",
        some "GTC"⟩ : OrderRequest).stopPrice.isSome = true ∧
      (⟨"BTCUSDT", "SELL", "STOP_LOSS_LIMIT", "1.000", some "2.0", some "3.0",
        some "GTC"⟩ : OrderRequest).timeInForce = some "GTC" ∧
      (⟨"BTCUSDT", "SELL", "STOP_LOSS_LIMIT", "1.000", some "2.0", some "3.0",
        some "GTC"⟩ : OrderRequest).type = "STOP_LOSS_LIMIT") :=
  ⟨(order_type_field_presence infoBTC "BTCUSDT" "BUY" 1 2 3
      ⟨"BTCUSDT", "BUY", "MARKET", "1.000", none, none, none⟩
      ⟨"BTCUSDT", "SELL", "STOP_LOSS_LIMIT", "1.000", some "2.0", some "3.0",
        some "GTC"⟩).1 market_btc_request,
   (order_type_field_presence infoBTC "BTCUSDT" "SELL" 1 2 3
      ⟨"BTCUSDT", "BUY", "MARKET", "1.000", none, none, none⟩
      ⟨"BTCUSDT", "SELL", "STOP_LOSS_LIMIT", "1.000", some "2.0", some "3.0",
        some "GTC"⟩).2 sll_btc_request⟩

/-- C9: when the symbol is absent from the fetched metadata, the filter
lookup fails with the symbol-not-found error and every builder aborts
with that same error — no request is produced; the error is returned to
the caller, not swallowed. -/
theorem symbol_not_found_aborts (info : List SymbolInfo) (symbol side : String)
    (q pr sp : ℚ) (habs : ∀ item ∈ info, item.symbol ≠ symbol) :
    getSymbolFilters info symbol = .error (.symbolNotFound symbol) ∧
    placeMarketOrder info symbol side q = .error (.symbolNotFound symbol) ∧
    placeLimitOrder info symbol side q pr = .error (.symbolNotFound symbol) ∧
    placeStopLossLimit info symbol side q pr sp = .error (.symbolNotFound symbol) := by
  have hfind : info.find? (fun item => item.symbol == symbol) = none :=
    List.find?_eq_none.mpr (fun item hm => by simpa using habs item hm)
  have hg : getSymbolFilters info symbol = .error (.symbolNotFound symbol) := by
    simp only [getSymbolFilters, hfind]
  exact ⟨hg, by simp only [placeMarketOrder, hg], by simp only [placeLimitOrder, hg],
    by simp only [placeStopLossLimit, hg]⟩

/-- C9 witness: `ETHUSDT` is absent from the BTCUSDT-only fixture. -/
theorem symbol_not_found_aborts_witness :
    getSymbolFilters infoBTC "ETHUSDT" = .error (.symbolNotFound "ETHUSDT") ∧
    placeMarketOrder infoBTC "ETHUSDT" "BUY" 1 = .error (.symbolNotFound "ETHUSDT") ∧
    placeLimitOrder infoBTC "ETHUSDT" "BUY" 1 1 = .error (.symbolNotFound "ETHUSDT") ∧
    placeStopLossLimit infoBTC "ETHUSDT" "BUY" 1 1 1
      = .error (.symbolNotFound "ETHUSDT") :=
  symbol_not_found_aborts infoBTC "ETHUSDT" "BUY" 1 1 1 (by decide)

/-- C10: for a step string with no decimal point that does not parse to 1,
the precision is the length of the entire string with trailing zeros
stripped, so the output carries fractional digits even though the step is
a whole number: rounding `23` with step `"10"` yields `"20.0"`,
not `"20"`. -/
theorem undotted_step_precision (s : String) (step : ℚ)
    (_hp : parseDec s = some step) (hnd : '.' ∉ s.data) (h1 : step ≠ 1) :
    roundPrecision s step = (stripTrailingZeros s.data).length ∧
    roundValue 23 "10" = some "20.0" :=
  ⟨roundPrecision_undotted s step hnd h1, roundValue_23_ten⟩

/-- C10 witness at step string `"10"`. -/
theorem undotted_step_precision_witness :
    roundPrecision "10" 10 = (stripTrailingZeros "10".data).length ∧
    roundValue 23 "10" = some "20.0" :=
  undotted_step_precision "10" 10 parseDec_ten (by decide) (by norm_num)

end TradeBot
